import Mathlib

/-!
Verification development for the FormKit `@formkit/addons` package
(multi-step navigation plugin and local-storage persistence plugin).

The definitions below are a shallow embedding of the bundled JavaScript in
`packages/addons/dist/index.d.ts`.  JavaScript values that matter to the
verified properties (JSON data, prop values) are modelled by `JsonVal`;
`localStorage` is modelled by an association list; the multi-step step
contexts are modelled by the `Step` structure; asynchronous guard functions
are modelled as functions returning a `GuardOutcome` (a returned value or a
thrown exception), and `await`-sequencing is modelled by explicit state
threading in `isTargetStepAllowed`.
-/

namespace FormKitAddons

/-- JSON-serialisable JavaScript values.  `JSON.stringify`/`JSON.parse`
round-tripping is the identity on these, so the model stores `JsonVal`s
directly instead of strings. -/
inductive JsonVal where
  | null : JsonVal
  | bool (b : Bool) : JsonVal
  | num (n : Int) : JsonVal
  | str (s : String) : JsonVal
  | arr (xs : List JsonVal) : JsonVal
  | obj (kvs : List (String × JsonVal)) : JsonVal

/-- JavaScript truthiness of a `JsonVal`. -/
def jsTruthy : JsonVal → Bool
  | .null => false
  | .bool b => b
  | .num n => n != 0
  | .str s => s != ""
  | .arr _ => true
  | .obj _ => true

/-- Whether `typeof v === 'object'` holds in JavaScript (`null` and arrays
included). -/
def jsTypeofObject : JsonVal → Bool
  | .obj _ => true
  | .arr _ => true
  | .null => true
  | _ => false

/-- Property access `v.k`: `some` when `v` is an object holding key `k`,
`none` (JavaScript `undefined`) otherwise. -/
def jsGetField (v : JsonVal) (k : String) : Option JsonVal :=
  match v with
  | .obj kvs => kvs.lookup k
  | _ => none

/-- Property assignment `v.k = x`.  On non-objects it is a silent no-op
(non-strict JavaScript behaviour for primitives). -/
def jsSetField (v : JsonVal) (k : String) (x : JsonVal) : JsonVal :=
  match v with
  | .obj kvs => .obj ((k, x) :: kvs.filter (fun kv => kv.1 != k))
  | _ => v

/-- `@formkit/utils` `undefine`: `true` when the value is defined and is
neither `false` nor the string `"false"`, `undefined` (here `false`)
otherwise.  The argument is an optional prop value (`none` = `undefined`). -/
def jsUndefine : Option JsonVal → Bool
  | none => false
  | some (.bool false) => false
  | some (.str "false") => false
  | some _ => true

/-! ### A `localStorage` model -/

/-- The key/value store backing `localStorage`, holding parsed JSON values. -/
abbrev Store := List (String × JsonVal)

/-- `localStorage.getItem` (with the JSON parse folded in). -/
def getItem (s : Store) (k : String) : Option JsonVal :=
  s.lookup k

/-- `localStorage.setItem` (with the JSON stringify folded in). -/
def setItem (s : Store) (k : String) (v : JsonVal) : Store :=
  (k, v) :: s.filter (fun kv => kv.1 != k)

/-- `localStorage.removeItem`. -/
def removeItem (s : Store) (k : String) : Store :=
  s.filter (fun kv => kv.1 != k)

theorem getItem_setItem_same (s : Store) (k : String) (v : JsonVal) :
    getItem (setItem s k v) k = some v := by
  simp [getItem, setItem, List.lookup]

theorem getItem_removeItem_same (s : Store) (k : String) :
    getItem (removeItem s k) k = none := by
  induction s with
  | nil => rfl
  | cons kv rest ih =>
    show getItem (List.filter (fun kv => kv.1 != k) (kv :: rest)) k = none
    rw [List.filter_cons]
    by_cases h : kv.1 = k
    · have hb : (kv.1 != k) = false := by simp [h]
      rw [hb]
      exact ih
    · have hb : (kv.1 != k) = true := by simp [h]
      rw [hb]
      show List.lookup k (kv :: List.filter (fun kv => kv.1 != k) rest) = none
      rw [List.lookup]
      have hk : (k == kv.1) = false := by
        simp [Ne.symm h]
      rw [hk]
      exact ih

/-! ### Multi-step data model -/

/-- A step context (`FormKitFrameworkContext` of a `step` node) restricted to
the fields the multi-step plugin reads and writes.  `stateValid` embeds
`context.state.valid`; `stepsRef` embeds the `steps` back-reference as the
list of step names (object references are modelled by names, which are
unique among siblings). -/
structure Step where
  name : String
  stateValid : Bool := true
  isFirstStep : Bool := false
  isLastStep : Bool := false
  stepIndex : Nat := 0
  stepsRef : List String := []
  ordered : Bool := false
  isPlaceholder : Bool := false
  deriving DecidableEq, Repr

/-- The navigation-relevant mutable UI state touched by
`isTargetStepAllowed`: the container's `disabled` prop, the current step's
`disabled` prop, and whether a `loading` message sits in the container's
message store. -/
structure NavState where
  containerDisabled : Bool
  stepDisabled : Bool
  loadingMessage : Bool
  deriving DecidableEq, Repr

/-- A field value inside the argument object handed to a navigation guard. -/
inductive ArgField where
  | step (s : Step) : ArgField
  | num (n : Int) : ArgField
  deriving DecidableEq, Repr

/-- The argument object passed to a `beforeStepChange` guard, as an
association list from field names to values (so that the actual field
names used by the implementation are part of the model). -/
abbrev GuardArg := List (String × ArgField)

/-- A value returned by a guard: a boolean, or anything else. -/
inductive JsRet where
  | bool (b : Bool) : JsRet
  | other : JsRet
  deriving DecidableEq, Repr

/-- The outcome of awaiting a guard: a returned value, or a thrown
exception / rejected promise. -/
inductive GuardOutcome where
  | ret (v : JsRet) : GuardOutcome
  | throws : GuardOutcome
  deriving DecidableEq, Repr

/-- A `beforeStepChange` guard function. -/
abbrev Guard := GuardArg → GuardOutcome

/-- The multi-step container as seen by `isTargetStepAllowed`: the parent
node's `steps` prop, its (already resolved, boolean) `allowIncomplete`
prop, its own `beforeStepChange` prop, and the per-step `beforeStepChange`
props keyed by step name. -/
structure MSModel where
  steps : List Step
  allowIncomplete : Bool
  parentGuard : Option Guard
  stepGuard : String → Option Guard

/-- Errors that can escape `isTargetStepAllowed`: an uncaught guard
exception, or the `TypeError` from reading `.state` of an out-of-bounds
(`undefined`) intermediate step. -/
inductive NavErr where
  | guardThrow : NavErr
  | typeError : NavErr
  deriving DecidableEq, Repr

/-- JavaScript array indexing with a (possibly negative) integer index. -/
def jsIdx {α : Type} (l : List α) (i : Int) : Option α :=
  if 0 ≤ i then l.get? i.toNat else none

/-- `Array.prototype.indexOf`: the index of the first occurrence, `-1` when
absent. -/
def jsIndexOf (l : List Step) (s : Step) : Int :=
  match l.findIdx? (fun t => t = s) with
  | some i => (i : Int)
  | none => -1

/-- The guard consulted for a transition away from `current`:
`currentStep.node.props.beforeStepChange ||
currentStep.node.parent?.props.beforeStepChange`. -/
def guardOf (m : MSModel) (current : Step) : Option Guard :=
  match m.stepGuard current.name with
  | some g => some g
  | none => m.parentGuard

/-- The argument object built for the guard call.  Note the implementation
passes `targetStep`, not the `nextStep` field declared by
`BeforeStepChangeData`. -/
def mkGuardArg (current target : Step) (delta : Int) : GuardArg :=
  [("currentStep", .step current), ("targetStep", .step target), ("delta", .num delta)]

/-- The forward-completion loop of `isTargetStepAllowed`: for each listed
index, `stepIsAllowed = allowIncomplete || intermediateStep.state?.valid`
(short-circuit: with `allowIncomplete` the step is never dereferenced), and
a disallowed step returns `false` immediately. -/
def forwardCheck (steps : List Step) (allowIncomplete : Bool) :
    List Int → Except NavErr Bool
  | [] => .ok true
  | i :: rest =>
    if allowIncomplete then forwardCheck steps allowIncomplete rest
    else
      match jsIdx steps i with
      | none => .error .typeError
      | some s =>
        if s.stateValid then forwardCheck steps allowIncomplete rest
        else .ok false

/-- The part of `isTargetStepAllowed` after the guard: backward moves are
allowed outright, forward moves run the completion loop over the indices
`currentStepIndex + i` for `0 ≤ i < delta`. -/
def postGuard (m : MSModel) (ci ti : Int) : Except NavErr Bool :=
  if ti < ci then .ok true
  else forwardCheck m.steps m.allowIncomplete
    ((List.range (ti - ci).toNat).map (fun (k : Nat) => ci + (k : Int)))

/-- Everything observable about one `isTargetStepAllowed` run: its result
(or escaped exception), the guard invocations with their argument objects,
the UI state at the moment of each invocation, and the UI state when the
run ends. -/
structure NavOutcome where
  result : Except NavErr Bool
  guardCalls : List GuardArg
  pendingStates : List NavState
  finalState : NavState

/-- Shallow embedding of `isTargetStepAllowed(currentStep, targetStep)`.
`init` is the UI state when the call starts (the call overwrites, never
reads, that state). -/
def isTargetStepAllowed (m : MSModel) (current target : Step) (init : NavState) :
    NavOutcome :=
  if current = target then
    { result := .ok true, guardCalls := [], pendingStates := [], finalState := init }
  else
    let ci := jsIndexOf m.steps current
    let ti := jsIndexOf m.steps target
    match guardOf m current with
    | none =>
      { result := postGuard m ci ti, guardCalls := [], pendingStates := [],
        finalState := init }
    | some g =>
      let pending : NavState :=
        { containerDisabled := true, stepDisabled := true, loadingMessage := true }
      let arg := mkGuardArg current target (ti - ci)
      match g arg with
      | .throws =>
        { result := .error .guardThrow, guardCalls := [arg],
          pendingStates := [pending], finalState := pending }
      | .ret v =>
        let cleared : NavState :=
          { containerDisabled := false, stepDisabled := false, loadingMessage := false }
        if v = .bool false then
          { result := .ok false, guardCalls := [arg],
            pendingStates := [pending], finalState := cleared }
        else
          { result := postGuard m ci ti, guardCalls := [arg],
            pendingStates := [pending], finalState := cleared }

/-! ### Step registry: position props, DOM ordering, attach/remove handlers -/

/-- Worker for `setNodePositionProps`: walks the list carrying the running
index, the total length and the name list of the full array (the `steps`
back-reference every step receives). -/
def setPos (total : Nat) (names : List String) : Nat → List Step → List Step
  | _, [] => []
  | i, s :: rest =>
    { s with
      isFirstStep := i == 0
      isLastStep := i == total - 1
      stepIndex := i
      stepsRef := names } :: setPos total names (i + 1) rest

/-- `setNodePositionProps(steps)`: recompute `isFirstStep` / `isLastStep` /
`stepIndex` and the `steps` back-reference for every step. -/
def setNodePositionProps (steps : List Step) : List Step :=
  setPos steps.length (steps.map (fun s => s.name)) 0 steps

/-- Stable insertion of a step into a list sorted by the document position
of each step's root element (`domIdx` maps a step's id to that position). -/
def insertByDom (domIdx : String → Nat) (s : Step) : List Step → List Step
  | [] => [s]
  | t :: rest =>
    if domIdx s.name ≤ domIdx t.name then s :: t :: rest
    else t :: insertByDom domIdx s rest

/-- Stable sort by document position, modelling `Array.prototype.sort` with
the `compareDocumentPosition` comparator of `orderSteps`. -/
def sortByDom (domIdx : String → Nat) : List Step → List Step
  | [] => []
  | s :: rest => insertByDom domIdx s (sortByDom domIdx rest)

/-- `orderSteps(node, steps)`: outside a browser the list is returned
unchanged; in a browser the steps are re-sorted by DOM position and each
step's `ordered` flag is set. -/
def orderSteps (isBrowser : Bool) (domIdx : String → Nat) (steps : List Step) :
    List Step :=
  if isBrowser then
    (sortByDom domIdx steps).map (fun s => { s with ordered := true })
  else steps

/-- The steps-list part of the container's `node.on('child')` handler:
drop SSR placeholder steps, append the new child's context, re-sort by DOM
order, and recompute position props. -/
def childAttach (isBrowser : Bool) (domIdx : String → Nat) (steps : List Step)
    (child : Step) : List Step :=
  let steps1 := if steps.length > 0 then steps.filter (fun s => !s.isPlaceholder) else steps
  let steps2 := if steps1.length > 0 then steps1 ++ [child] else [child]
  setNodePositionProps (orderSteps isBrowser domIdx steps2)

/-- The filter inside `node.on('childRemoved')`: drops every step whose
node name equals the removed child's name, recording (`removedStepIndex`)
the original index of the last step dropped (`-1` when none matched).
`i` is the index of the list head in the original array and `acc` the
`removedStepIndex` recorded so far. -/
def filterRemovedAux (nm : String) : List Step → Nat → Int → List Step × Int
  | [], _, acc => ([], acc)
  | s :: rest, i, acc =>
    if s.name = nm then filterRemovedAux nm rest (i + 1) (i : Int)
    else
      let r := filterRemovedAux nm rest (i + 1) acc
      (s :: r.1, r.2)

/-- The container's `node.on('childRemoved')` handler: filter out the
removed step, recompute position props, and when the removed step was the
active one fall back to the step at index `removedStepIndex - 1` (floored
at `0`), or the empty string when no step remains.  Returns the new steps
list and the new `activeStep` prop. -/
def childRemoved (steps : List Step) (activeStep removedName : String) :
    List Step × String :=
  let fr := filterRemovedAux removedName steps 0 (-1)
  let positioned := setNodePositionProps fr.1
  let newActive :=
    if activeStep = removedName then
      let targetIndex : Int := if fr.2 > 0 then fr.2 - 1 else 0
      match jsIdx positioned targetIndex with
      | some s => s.name
      | none => ""
    else activeStep
  (positioned, newActive)

/-! ### `createMultiStepPlugin` option resolution -/

/-- Resolution of the container's `allowIncomplete` prop from the node's
own prop and the plugin option: the first of the two that is a boolean
wins, defaulting to `true`.  `none` models an undefined prop or absent
options object. -/
def resolveAllowIncomplete (nodeProp optProp : Option JsonVal) : JsonVal :=
  match nodeProp with
  | some (.bool b) => .bool b
  | _ =>
    match optProp with
    | some (.bool b) => .bool b
    | _ => .bool true

/-! ### Local-storage persistence plugin -/

/-- The options of `createLocalStoragePlugin` after the defaulting done in
the `created` handler (`debounce` 200ms, `pfx` `"formkit"`, `maxAge` one
hour, `key` rendered as a `-key` segment), plus the storage key
`` `${prefix}${key}-${node.name}` `` precomputed.  Transform hooks are
modelled as total functions on the JSON payload. -/
structure PersistCfg where
  storageKey : String
  maxAge : Int := 3600000
  debounceMs : Int := 200
  control : Option String := none
  beforeSave : Option (JsonVal → JsonVal) := none
  beforeLoad : Option (JsonVal → JsonVal) := none

/-- The storage key `` `${prefix}${key}-${node.name}` `` where a configured
user key contributes `-${key}`. -/
def mkStorageKey (pfx : String) (userKey : Option String) (nodeName : String) :
    String :=
  pfx ++ (match userKey with | some k => "-" ++ k | none => "") ++ "-" ++ nodeName

/-- `saveValue(payload)`: apply the `beforeSave` hook when configured, bail
on a falsy payload, otherwise write `{ maxAge: now + ttl, data }` under the
storage key. -/
def saveValue (cfg : PersistCfg) (now : Int) (s : Store) (payload : JsonVal) :
    Store :=
  let savePayload := match cfg.beforeSave with
    | some f => f payload
    | none => payload
  if jsTruthy savePayload then
    setItem s cfg.storageKey
      (.obj [("maxAge", .num (now + cfg.maxAge)), ("data", savePayload)])
  else s

/-- `loadValue()`: read the entry under the storage key (absent entry:
no-op), apply the `beforeLoad` hook to its `data` field when configured,
bail when `data` is not `typeof 'object'`, restore the data when the
stored `maxAge` expiry lies in the future, and otherwise purge the entry.
Returns the updated store and the value handed to `node.input` (if any). -/
def loadValue (cfg : PersistCfg) (now : Int) (s : Store) :
    Store × Option JsonVal :=
  match getItem s cfg.storageKey with
  | none => (s, none)
  | some v =>
    let lv := match cfg.beforeLoad with
      | some f =>
        jsSetField v "data" (f ((jsGetField v "data").getD .null))
      | none => v
    if jsTruthy lv then
      match jsGetField lv "data" with
      | some d =>
        if jsTypeofObject d then
          match jsGetField lv "maxAge" with
          | some (.num e) =>
            if now < e then (s, some d)
            else (removeItem s cfg.storageKey, none)
          | _ => (removeItem s cfg.storageKey, none)
        else (s, none)
      | none => (s, none)
    else (s, none)

/-- `shouldUseLocalStorage(controlNode)`: `undefine` of the
`useLocalStorage` prop, and — only when a control node was passed — the
control node's value being exactly the boolean `true`. -/
def shouldUseLocalStorage (prop : Option JsonVal) (controlNodeValue : Option JsonVal) :
    Bool :=
  let controlFieldValue := match controlNodeValue with
    | none => true
    | some v => match v with
      | .bool true => true
      | _ => false
  jsUndefine prop && controlFieldValue

/-- The per-form mutable state of the local-storage plugin after its
`created` handler has run: the `useLocalStorage` prop, the current value
of the configured control field, the cached `useLocalStorage` boolean the
commit handler consults, and the backing store. -/
structure LSState where
  prop : Option JsonVal
  controlValue : JsonVal
  useLocalStorage : Bool
  store : Store

/-- State set up by the `created` handler.  Faithful to the source: the
outer `controlNode` variable is shadowed by the inner
`const controlNode = node.at(controlField)` and therefore stays
`undefined`, so this initial computation passes no control node to
`shouldUseLocalStorage` even when a control field is configured. -/
def lsInit (prop : Option JsonVal) (controlValue : JsonVal) (store : Store) :
    LSState :=
  { prop := prop, controlValue := controlValue,
    useLocalStorage := shouldUseLocalStorage prop none, store := store }

/-- The events the plugin reacts to after creation.  The debounce timer
only coalesces saves; a commit that survives the debounce window writes,
so the model performs the (debounced) save eagerly. -/
inductive LSEvent where
  | formCommit (payload : JsonVal) (now : Int) : LSEvent
  | controlCommit (value : JsonVal) : LSEvent
  | propUseLocalStorage (prop : Option JsonVal) : LSEvent

/-- One event-handler step of the local-storage plugin.
The `controlCommit` handler (registered only when a control field is
configured) sees the real control node; the `prop:useLocalStorage` handler
reads the outer — forever `undefined` — `controlNode` variable. -/
def lsStep (cfg : PersistCfg) (st : LSState) : LSEvent → LSState
  | .formCommit payload now =>
    if st.useLocalStorage then
      { st with store := saveValue cfg now st.store payload }
    else st
  | .controlCommit v =>
    if cfg.control.isSome then
      let u := shouldUseLocalStorage st.prop (some v)
      let st' := { st with controlValue := v, useLocalStorage := u }
      if u then st'
      else { st' with store := removeItem st'.store cfg.storageKey }
    else st
  | .propUseLocalStorage p =>
    let u := shouldUseLocalStorage p none
    let st' := { st with prop := p, useLocalStorage := u }
    if u then st'
    else { st' with store := removeItem st'.store cfg.storageKey }

/-! ### Characterisation lemmas for `isTargetStepAllowed` -/

theorem forwardCheck_allowIncomplete_ok (steps : List Step) (idxs : List Int) :
    forwardCheck steps true idxs = .ok true := by
  induction idxs with
  | nil => rfl
  | cons i rest ih => simpa [forwardCheck] using ih

theorem isTSA_result_noguard (m : MSModel) (current target : Step)
    (init : NavState) (hne : current ≠ target)
    (hg : guardOf m current = none) :
    (isTargetStepAllowed m current target init).result =
      postGuard m (jsIndexOf m.steps current) (jsIndexOf m.steps target) := by
  rw [isTargetStepAllowed, if_neg hne]
  simp only [hg]

theorem isTSA_result_guard_ret (m : MSModel) (current target : Step)
    (init : NavState) (g : Guard) (v : JsRet) (hne : current ≠ target)
    (hg : guardOf m current = some g)
    (hr : g (mkGuardArg current target
        (jsIndexOf m.steps target - jsIndexOf m.steps current)) = .ret v) :
    (isTargetStepAllowed m current target init).result =
      (if v = .bool false then .ok false
       else postGuard m (jsIndexOf m.steps current)
        (jsIndexOf m.steps target)) := by
  rw [isTargetStepAllowed, if_neg hne]
  simp only [hg, hr]
  by_cases hv : v = .bool false <;> simp [hv]

theorem isTSA_result_guard_throws (m : MSModel) (current target : Step)
    (init : NavState) (g : Guard) (hne : current ≠ target)
    (hg : guardOf m current = some g)
    (hr : g (mkGuardArg current target
        (jsIndexOf m.steps target - jsIndexOf m.steps current)) = .throws) :
    (isTargetStepAllowed m current target init).result =
      .error .guardThrow := by
  rw [isTargetStepAllowed, if_neg hne]
  simp only [hg, hr]

theorem isTSA_guardCalls (m : MSModel) (current target : Step) (init : NavState)
    (hne : current ≠ target) :
    (isTargetStepAllowed m current target init).guardCalls =
      (match guardOf m current with
       | none => []
       | some _ =>
         [mkGuardArg current target
           (jsIndexOf m.steps target - jsIndexOf m.steps current)]) := by
  rw [isTargetStepAllowed, if_neg hne]
  cases hg : guardOf m current with
  | none => rfl
  | some g =>
    cases hr : g (mkGuardArg current target
        (jsIndexOf m.steps target - jsIndexOf m.steps current)) with
    | throws => simp [hr]
    | ret v =>
      by_cases hv : v = .bool false <;> simp [hr, hv]

theorem isTSA_self (m : MSModel) (c : Step) (init : NavState) :
    isTargetStepAllowed m c c init =
      { result := .ok true, guardCalls := [], pendingStates := [],
        finalState := init } := by
  rw [isTargetStepAllowed, if_pos rfl]

theorem isTSA_states_of_ret (m : MSModel) (current target : Step)
    (init : NavState) (g : Guard) (v : JsRet)
    (hg : guardOf m current = some g) (hne : current ≠ target)
    (hr : g (mkGuardArg current target
        (jsIndexOf m.steps target - jsIndexOf m.steps current)) = .ret v) :
    (isTargetStepAllowed m current target init).pendingStates =
      [{ containerDisabled := true, stepDisabled := true, loadingMessage := true }] ∧
    (isTargetStepAllowed m current target init).finalState =
      { containerDisabled := false, stepDisabled := false, loadingMessage := false } := by
  rw [isTargetStepAllowed, if_neg hne]
  simp only [hg, hr]
  by_cases hv : v = .bool false <;> simp [hv]

theorem postGuard_backward (m : MSModel) (ci ti : Int) (h : ti < ci) :
    postGuard m ci ti = .ok true := by
  simp [postGuard, h]

theorem postGuard_allowIncomplete (m : MSModel) (ci ti : Int)
    (h : m.allowIncomplete = true) :
    postGuard m ci ti = .ok true := by
  rw [postGuard]
  split
  · rfl
  · rw [h]
    exact forwardCheck_allowIncomplete_ok _ _

theorem jsIdx_natCast (l : List Step) (n : Nat) :
    jsIdx l (n : Int) = l.get? n := by
  simp [jsIdx]

theorem forwardCheck_cons_false (steps : List Step) (i : Int) (rest : List Int) :
    forwardCheck steps false (i :: rest) =
      (match jsIdx steps i with
       | none => Except.error NavErr.typeError
       | some s =>
         if s.stateValid then forwardCheck steps false rest
         else Except.ok false) := rfl

theorem forwardCheck_ok_false_iff (steps : List Step) (aI : Bool)
    (idxs : List Int) (hb : ∀ i ∈ idxs, ∃ s, jsIdx steps i = some s) :
    forwardCheck steps aI idxs = .ok false ↔
      (aI = false ∧
        ∃ i ∈ idxs, ∃ s, jsIdx steps i = some s ∧ s.stateValid = false) := by
  cases aI with
  | true =>
    rw [forwardCheck_allowIncomplete_ok]
    simp
  | false =>
    induction idxs with
    | nil => simp [forwardCheck]
    | cons i rest ih =>
      have hbrest : ∀ j ∈ rest, ∃ s, jsIdx steps j = some s :=
        fun j hj => hb j (List.mem_cons_of_mem i hj)
      obtain ⟨s, hs⟩ := hb i (List.mem_cons_self i rest)
      have hstep : forwardCheck steps false (i :: rest) =
          if s.stateValid then forwardCheck steps false rest
          else Except.ok false := by
        rw [forwardCheck_cons_false, hs]
      rw [hstep]
      cases hv : s.stateValid with
      | true =>
        rw [if_pos rfl, ih hbrest]
        constructor
        · rintro ⟨-, j, hj, t, hjt, ht⟩
          exact ⟨rfl, j, List.mem_cons_of_mem i hj, t, hjt, ht⟩
        · rintro ⟨-, j, hj, t, hjt, ht⟩
          rcases List.mem_cons.mp hj with hji | hjr
          · subst hji
            rw [hs] at hjt
            cases hjt
            rw [hv] at ht
            cases ht
          · exact ⟨rfl, j, hjr, t, hjt, ht⟩
      | false =>
        rw [if_neg (by simp)]
        constructor
        · intro _
          exact ⟨rfl, i, List.mem_cons_self i rest, s, hs, hv⟩
        · intro _
          rfl

theorem forwardCheck_range_iff (steps : List Step) (aI : Bool) (c t : Nat)
    (hlen : t ≤ steps.length) :
    forwardCheck steps aI
        ((List.range (t - c)).map (fun (k : Nat) => ((c : Int) + (k : Int)))) =
        .ok false ↔
      (aI = false ∧
        ∃ i s, c ≤ i ∧ i < t ∧ steps.get? i = some s ∧ s.stateValid = false) := by
  have hb : ∀ i ∈ (List.range (t - c)).map (fun (k : Nat) => ((c : Int) + (k : Int))),
      ∃ s, jsIdx steps i = some s := by
    intro i hi
    rcases List.mem_map.mp hi with ⟨k, hk, rfl⟩
    have hk' := List.mem_range.mp hk
    have hck : c + k < steps.length := by omega
    have hcast : ((c : Int) + (k : Int)) = ((c + k : Nat) : Int) := by
      push_cast
      ring
    rw [hcast, jsIdx_natCast]
    exact ⟨_, List.get?_eq_get hck⟩
  rw [forwardCheck_ok_false_iff steps aI _ hb]
  constructor
  · rintro ⟨ha, i, hi, s, his, hv⟩
    rcases List.mem_map.mp hi with ⟨k, hk, rfl⟩
    have hk' := List.mem_range.mp hk
    have hcast : ((c : Int) + (k : Int)) = ((c + k : Nat) : Int) := by
      push_cast
      ring
    rw [hcast, jsIdx_natCast] at his
    exact ⟨ha, c + k, s, by omega, by omega, his, hv⟩
  · rintro ⟨ha, i, s, hci, hit, his, hv⟩
    refine ⟨ha, ((i : Nat) : Int), ?_, s, ?_, hv⟩
    · apply List.mem_map.mpr
      refine ⟨i - c, List.mem_range.mpr (by omega), ?_⟩
      show ((c : Int) + ((i - c : Nat) : Int)) = ((i : Nat) : Int)
      omega
    · rw [jsIdx_natCast]
      exact his

/-! ### Lemmas about the step registry -/

theorem setPos_get? (total : Nat) (names : List String) :
    ∀ (l : List Step) (i j : Nat),
      (setPos total names i l).get? j =
        (l.get? j).map (fun s =>
          { s with
            isFirstStep := (i + j) == 0
            isLastStep := (i + j) == total - 1
            stepIndex := i + j
            stepsRef := names }) := by
  intro l
  induction l with
  | nil => intro i j; rfl
  | cons s rest ih =>
    intro i j
    cases j with
    | zero => rfl
    | succ j =>
      have harith : i + 1 + j = i + (j + 1) := by omega
      show (setPos total names (i + 1) rest).get? j = _
      rw [ih (i + 1) j, harith]
      rfl

theorem setPos_length (total : Nat) (names : List String) :
    ∀ (l : List Step) (i : Nat), (setPos total names i l).length = l.length := by
  intro l
  induction l with
  | nil => intro i; rfl
  | cons s rest ih =>
    intro i
    show (setPos total names (i + 1) rest).length + 1 = rest.length + 1
    rw [ih]

theorem setPos_names (total : Nat) (names : List String) :
    ∀ (l : List Step) (i : Nat),
      (setPos total names i l).map (fun s => s.name) = l.map (fun s => s.name) := by
  intro l
  induction l with
  | nil => intro i; rfl
  | cons s rest ih =>
    intro i
    show s.name :: (setPos total names (i + 1) rest).map (fun s => s.name) = _
    rw [ih]
    rfl

theorem setNodePositionProps_get? (l : List Step) (j : Nat) :
    (setNodePositionProps l).get? j =
      (l.get? j).map (fun s =>
        { s with
          isFirstStep := j == 0
          isLastStep := j == l.length - 1
          stepIndex := j
          stepsRef := l.map (fun t => t.name) }) := by
  rw [setNodePositionProps, setPos_get?]
  simp

theorem setNodePositionProps_length (l : List Step) :
    (setNodePositionProps l).length = l.length := by
  rw [setNodePositionProps, setPos_length]

theorem setNodePositionProps_names (l : List Step) :
    (setNodePositionProps l).map (fun s => s.name) = l.map (fun s => s.name) := by
  rw [setNodePositionProps, setPos_names]

/-- The position-metadata invariant of the spec: every step's
`isFirstStep` / `isLastStep` / `stepIndex` agree with its array position,
and its `steps` back-reference is the full current list. -/
def posConsistent (l : List Step) : Prop :=
  ∀ i s, l.get? i = some s →
    s.isFirstStep = (i == 0) ∧
    s.isLastStep = (i == l.length - 1) ∧
    s.stepIndex = i ∧
    s.stepsRef = l.map (fun t => t.name)

theorem posConsistent_setNodePositionProps (l : List Step) :
    posConsistent (setNodePositionProps l) := by
  intro i s h
  rw [setNodePositionProps_get?] at h
  cases hl : l.get? i with
  | none =>
    rw [hl] at h
    cases h
  | some orig =>
    rw [hl] at h
    cases h
    refine ⟨rfl, ?_, rfl, ?_⟩
    · rw [setNodePositionProps_length]
    · rw [setNodePositionProps_names]

theorem filterRemovedAux_notMem (nm : String) :
    ∀ (l : List Step), (∀ st ∈ l, st.name ≠ nm) →
      ∀ (i : Nat) (acc : Int), filterRemovedAux nm l i acc = (l, acc) := by
  intro l
  induction l with
  | nil => intro _ i acc; rfl
  | cons s rest ih =>
    intro h i acc
    have hs : s.name ≠ nm := h s (List.mem_cons_self s rest)
    have hrest : ∀ st ∈ rest, st.name ≠ nm :=
      fun st hst => h st (List.mem_cons_of_mem s hst)
    show (if s.name = nm then _ else _) = _
    rw [if_neg hs, ih hrest (i + 1) acc]

theorem filterRemovedAux_spec (nm : String) :
    ∀ (l : List Step) (p : Nat) (s : Step),
      ((l.map (fun st => st.name)).Nodup) →
      l.get? p = some s → s.name = nm →
      ∀ (i : Nat) (acc : Int),
        filterRemovedAux nm l i acc = (l.eraseIdx p, ((i + p : Nat) : Int)) := by
  intro l
  induction l with
  | nil =>
    intro p s _ hp
    cases p <;> cases hp
  | cons hd rest ih =>
    intro p s hnd hp hnm i acc
    have hndrest : (rest.map (fun st => st.name)).Nodup := by
      rw [List.map_cons, List.nodup_cons] at hnd
      exact hnd.2
    have hhd : hd.name ∉ rest.map (fun st => st.name) := by
      rw [List.map_cons, List.nodup_cons] at hnd
      exact hnd.1
    by_cases hcase : hd.name = nm
    · have hp0 : p = 0 := by
        by_contra hne
        cases p with
        | zero => exact hne rfl
        | succ q =>
          have hsmem : s ∈ rest := List.get?_mem hp
          have : s.name ∈ rest.map (fun st => st.name) :=
            List.mem_map.mpr ⟨s, hsmem, rfl⟩
          rw [hnm, ← hcase] at this
          exact hhd this
      subst hp0
      have hrestno : ∀ st ∈ rest, st.name ≠ nm := by
        intro st hst heq
        apply hhd
        have hmem : st.name ∈ rest.map (fun st => st.name) :=
          List.mem_map.mpr ⟨st, hst, rfl⟩
        rw [heq, ← hcase] at hmem
        exact hmem
      show (if hd.name = nm then _ else _) = _
      rw [if_pos hcase, filterRemovedAux_notMem nm rest hrestno (i + 1) (i : Int)]
      simp [List.eraseIdx]
    · cases p with
      | zero =>
        cases hp
        exact absurd hnm hcase
      | succ q =>
        show (if hd.name = nm then _ else _) = _
        rw [if_neg hcase]
        have hq : rest.get? q = some s := hp
        rw [ih q s hndrest hq hnm (i + 1) acc]
        show (hd :: rest.eraseIdx q, ((i + 1 + q : Nat) : Int)) = _
        have : i + 1 + q = i + (q + 1) := by omega
        rw [this]
        rfl

/-! ### Concrete fixtures -/

def stepA : Step := { name := "A" }

def stepB : Step := { name := "B" }

def stepC : Step := { name := "C" }

def stepAInvalid : Step := { name := "A", stateValid := false }

def stepBInvalid : Step := { name := "B", stateValid := false }

def navInit : NavState :=
  { containerDisabled := false, stepDisabled := false, loadingMessage := false }

def noGuards : String → Option Guard := fun _ => none

/-- Steps `[A, B, C]` with only `B` invalid and `allowIncomplete = false`
(the worked example of the spec). -/
def mABC : MSModel :=
  { steps := [stepA, stepBInvalid, stepC], allowIncomplete := false,
    parentGuard := none, stepGuard := noGuards }

/-- Steps `[A, B]` with the current step `A` invalid. -/
def mC1 : MSModel :=
  { steps := [stepAInvalid, stepB], allowIncomplete := false,
    parentGuard := none, stepGuard := noGuards }

def guardOther : Guard := fun _ => GuardOutcome.ret .other

def guardFalse : Guard := fun _ => GuardOutcome.ret (.bool false)

def guardThrows : Guard := fun _ => GuardOutcome.throws

/-- A guard registered only in the target step's own config. -/
def mTargetGuard : MSModel :=
  { steps := [stepA, stepC], allowIncomplete := true, parentGuard := none,
    stepGuard := fun n => if n = "C" then some guardOther else none }

/-- A guard registered only in the current step's own config. -/
def mCurrentGuard : MSModel :=
  { steps := [stepA, stepC], allowIncomplete := true, parentGuard := none,
    stepGuard := fun n => if n = "A" then some guardOther else none }

/-- A container guard that throws. -/
def mThrowGuard : MSModel :=
  { steps := [stepA, stepC], allowIncomplete := false,
    parentGuard := some guardThrows, stepGuard := noGuards }

/-- A container guard that returns `false`. -/
def mFalseGuard : MSModel :=
  { steps := [stepA, stepC], allowIncomplete := true,
    parentGuard := some guardFalse, stepGuard := noGuards }

/-! ### Claim C1 -/

/-- C1, counterexample: with steps `[A, B]`, `A` invalid, `B` valid,
`allowIncomplete = false` and no guard, the forward move `A → B` is vetoed
by `isTargetStepAllowed` although no step lies strictly between index 0
(current) and index 1 (target) — the claim as stated predicts the move is
allowed. -/
theorem C1_counterexample :
    mC1.allowIncomplete = false ∧
    guardOf mC1 stepAInvalid = none ∧
    jsIndexOf mC1.steps stepAInvalid = 0 ∧
    jsIndexOf mC1.steps stepB = 1 ∧
    (isTargetStepAllowed mC1 stepAInvalid stepB navInit).result = .ok false ∧
    (∀ i : Nat, ¬(0 < i ∧ i < 1)) := by
  refine ⟨rfl, rfl, rfl, rfl, rfl, ?_⟩
  intro i h
  omega

/-- C1 (amended): for a forward move with no guard registered, or with the
guard returning anything other than `false`, the navigation permission
check vetoes the move if and only if some step with index from the
current index (inclusive) up to the target index (exclusive) — the
current step or a step strictly between — is invalid while the
container's `allowIncomplete` policy is false. -/
theorem C1_forward_veto_iff (m : MSModel) (current target : Step)
    (init : NavState) (c t : Nat)
    (hc : jsIndexOf m.steps current = (c : Int))
    (ht : jsIndexOf m.steps target = (t : Int))
    (hct : c < t) (hlen : t ≤ m.steps.length) :
    (guardOf m current = none →
      ((isTargetStepAllowed m current target init).result = .ok false ↔
        (m.allowIncomplete = false ∧
          ∃ i s, c ≤ i ∧ i < t ∧ m.steps.get? i = some s ∧
            s.stateValid = false))) ∧
    (∀ g v, guardOf m current = some g →
      g (mkGuardArg current target
          (jsIndexOf m.steps target - jsIndexOf m.steps current)) = .ret v →
      v ≠ .bool false →
      ((isTargetStepAllowed m current target init).result = .ok false ↔
        (m.allowIncomplete = false ∧
          ∃ i s, c ≤ i ∧ i < t ∧ m.steps.get? i = some s ∧
            s.stateValid = false))) := by
  have hne : current ≠ target := by
    intro h
    rw [h, ht] at hc
    have hceq : t = c := by exact_mod_cast hc
    omega
  have hpost : postGuard m (jsIndexOf m.steps current)
      (jsIndexOf m.steps target) = .ok false ↔
      (m.allowIncomplete = false ∧
        ∃ i s, c ≤ i ∧ i < t ∧ m.steps.get? i = some s ∧
          s.stateValid = false) := by
    rw [hc, ht, postGuard,
      if_neg (by exact_mod_cast not_lt.mpr (by exact_mod_cast hct.le))]
    have htoNat : ((t : Int) - (c : Int)).toNat = t - c := by omega
    rw [htoNat]
    exact forwardCheck_range_iff m.steps m.allowIncomplete c t hlen
  constructor
  · intro hg
    rw [isTSA_result_noguard m current target init hne hg]
    exact hpost
  · intro g v hg hr hv
    rw [isTSA_result_guard_ret m current target init g v hne hg hr,
      if_neg hv]
    exact hpost

/-- C1 witness: the amended rule instantiated on the spec's own example
`[A, B, C]` with only `B` invalid: `goTo(C)` from `A` is vetoed, while
`goTo(B)` from `A` is allowed. -/
theorem C1_forward_veto_iff_witness :
    ((isTargetStepAllowed mABC stepA stepC navInit).result = .ok false ↔
      (mABC.allowIncomplete = false ∧
        ∃ i s, 0 ≤ i ∧ i < 2 ∧ mABC.steps.get? i = some s ∧
          s.stateValid = false)) ∧
    ((isTargetStepAllowed mABC stepA stepBInvalid navInit).result = .ok false ↔
      (mABC.allowIncomplete = false ∧
        ∃ i s, 0 ≤ i ∧ i < 1 ∧ mABC.steps.get? i = some s ∧
          s.stateValid = false)) ∧
    (isTargetStepAllowed mABC stepA stepC navInit).result = .ok false ∧
    (isTargetStepAllowed mABC stepA stepBInvalid navInit).result = .ok true :=
  ⟨(C1_forward_veto_iff mABC stepA stepC navInit 0 2 rfl rfl
      (by omega) (by decide)).1 rfl,
   (C1_forward_veto_iff mABC stepA stepBInvalid navInit 0 1 rfl rfl
      (by omega) (by decide)).1 rfl,
   rfl, rfl⟩

/-! ### Claim C2 -/

/-- C2: for every backward move (target index strictly below current
index), `isTargetStepAllowed` returns true regardless of step validity and
of `allowIncomplete` — if no guard is registered the result is `ok true`
outright, and among completed results the move is vetoed exactly when the
registered guard returned the boolean `false`. -/
theorem C2_backward_always_allowed (m : MSModel) (current target : Step)
    (init : NavState)
    (hne : current ≠ target)
    (hback : jsIndexOf m.steps target < jsIndexOf m.steps current) :
    (guardOf m current = none →
      (isTargetStepAllowed m current target init).result = .ok true) ∧
    (∀ b, (isTargetStepAllowed m current target init).result = .ok b →
      (b = false ↔ ∃ g, guardOf m current = some g ∧
        g (mkGuardArg current target
            (jsIndexOf m.steps target - jsIndexOf m.steps current)) =
          .ret (.bool false))) := by
  constructor
  · intro hg
    rw [isTSA_result_noguard m current target init hne hg]
    exact postGuard_backward m _ _ hback
  · intro b hres
    cases hg : guardOf m current with
    | none =>
      rw [isTSA_result_noguard m current target init hne hg,
        postGuard_backward m _ _ hback] at hres
      have hb : b = true := by
        injection hres with h
        exact h.symm
      subst hb
      constructor
      · intro h
        cases h
      · rintro ⟨g, hgg, -⟩
        cases hgg
    | some g =>
      cases hr : g (mkGuardArg current target
          (jsIndexOf m.steps target - jsIndexOf m.steps current)) with
      | throws =>
        rw [isTSA_result_guard_throws m current target init g hne hg hr]
          at hres
        cases hres
      | ret v =>
        rw [isTSA_result_guard_ret m current target init g v hne hg hr]
          at hres
        by_cases hv : v = .bool false
        · rw [if_pos hv] at hres
          have hb : b = false := by
            injection hres with h
            exact h.symm
          subst hb
          constructor
          · intro _
            exact ⟨g, rfl, by rw [hr, hv]⟩
          · intro _
            rfl
        · rw [if_neg hv, postGuard_backward m _ _ hback] at hres
          have hb : b = true := by
            injection hres with h
            exact h.symm
          subst hb
          constructor
          · intro h
            cases h
          · rintro ⟨g', hg', hret⟩
            injection hg' with hgg
            subst hgg
            rw [hr] at hret
            injection hret with hv'
            exact absurd hv' hv

/-- C2 witness: in `[A, B, C]` with `B` invalid and
`allowIncomplete = false`, the backward move `C → A` is allowed. -/
theorem C2_backward_always_allowed_witness :
    (isTargetStepAllowed mABC stepC stepA navInit).result = .ok true :=
  (C2_backward_always_allowed mABC stepC stepA navInit (by decide)
    (by decide)).1 rfl

/-! ### Claim C5 -/

/-- C5, counterexample: a guard registered only on the target step's own
config is never invoked (the implementation reads the guard off the
current step), and the argument object the implementation does pass has no
`nextStep` field — its fields are `currentStep`, `targetStep`, `delta`. -/
theorem C5_counterexample :
    (isTargetStepAllowed mTargetGuard stepA stepC navInit).guardCalls = [] ∧
    (isTargetStepAllowed mCurrentGuard stepA stepC navInit).guardCalls =
      [mkGuardArg stepA stepC 1] ∧
    (mkGuardArg stepA stepC 1).lookup "nextStep" = none ∧
    (mkGuardArg stepA stepC 1).lookup "targetStep" = some (.step stepC) := by
  exact ⟨rfl, rfl, rfl, rfl⟩

/-- C5 (amended): the guard is looked up on the current step's own config,
falling back to the container's; for a navigation between two distinct
steps it is invoked exactly once with an argument object whose fields are
`currentStep`, `targetStep` (not `nextStep`) and `delta`, where `delta`
equals `indexOf(target) - indexOf(current)`; no guard is invoked when
current equals target. -/
theorem C5_guard_invocation (m : MSModel) (current target : Step)
    (init : NavState) (g : Guard)
    (hg : guardOf m current = some g) (hne : current ≠ target) :
    (isTargetStepAllowed m current target init).guardCalls =
      [mkGuardArg current target
        (jsIndexOf m.steps target - jsIndexOf m.steps current)] ∧
    (mkGuardArg current target
      (jsIndexOf m.steps target - jsIndexOf m.steps current)).lookup
        "currentStep" = some (.step current) ∧
    (mkGuardArg current target
      (jsIndexOf m.steps target - jsIndexOf m.steps current)).lookup
        "targetStep" = some (.step target) ∧
    (mkGuardArg current target
      (jsIndexOf m.steps target - jsIndexOf m.steps current)).lookup
        "delta" =
      some (.num (jsIndexOf m.steps target - jsIndexOf m.steps current)) ∧
    (∀ (m' : MSModel) (c : Step) (init' : NavState),
      (isTargetStepAllowed m' c c init').guardCalls = []) := by
  refine ⟨?_, rfl, rfl, rfl, ?_⟩
  · rw [isTSA_guardCalls m current target init hne, hg]
  · intro m' c init'
    rw [isTSA_self]

/-- C5 witness: the amended invocation rule instantiated on a guard
registered on the current step `A` for the move `A → C`. -/
theorem C5_guard_invocation_witness :
    (isTargetStepAllowed mCurrentGuard stepA stepC navInit).guardCalls =
      [mkGuardArg stepA stepC
        (jsIndexOf mCurrentGuard.steps stepC -
          jsIndexOf mCurrentGuard.steps stepA)] :=
  (C5_guard_invocation mCurrentGuard stepA stepC navInit guardOther rfl
    (by decide)).1

/-! ### Claim C6 -/

/-- C6, counterexample: a throwing guard is not treated as an implicit
allow — the exception escapes `isTargetStepAllowed`, so the backward move
`C → A` (which the remaining rules would allow) produces neither an allow
nor a veto. -/
theorem C6_counterexample :
    (isTargetStepAllowed mThrowGuard stepC stepA navInit).result =
      .error .guardThrow ∧
    (∀ b, (isTargetStepAllowed mThrowGuard stepC stepA navInit).result ≠
      .ok b) := by
  refine ⟨rfl, ?_⟩
  intro b h
  rw [show (isTargetStepAllowed mThrowGuard stepC stepA navInit).result =
      Except.error NavErr.guardThrow from rfl] at h
  cases h

/-- C6 (amended): the transition is vetoed without consulting the
forward-completion rules exactly when the guard returns the boolean
`false`; any other returned value is an implicit allow, with the
backward/forward rules deciding the result; a guard that throws or
rejects makes the check propagate the exception, producing no decision. -/
theorem C6_guard_veto_semantics (m : MSModel) (current target : Step)
    (init : NavState) (g : Guard)
    (hg : guardOf m current = some g) (hne : current ≠ target) :
    (∀ v, g (mkGuardArg current target
        (jsIndexOf m.steps target - jsIndexOf m.steps current)) = .ret v →
      ((v = .bool false →
        (isTargetStepAllowed m current target init).result = .ok false) ∧
       (v ≠ .bool false →
        (isTargetStepAllowed m current target init).result =
          postGuard m (jsIndexOf m.steps current)
            (jsIndexOf m.steps target)))) ∧
    (g (mkGuardArg current target
        (jsIndexOf m.steps target - jsIndexOf m.steps current)) = .throws →
      (isTargetStepAllowed m current target init).result =
        .error .guardThrow) := by
  constructor
  · intro v hr
    constructor
    · intro hv
      rw [isTSA_result_guard_ret m current target init g v hne hg hr,
        if_pos hv]
    · intro hv
      rw [isTSA_result_guard_ret m current target init g v hne hg hr,
        if_neg hv]
  · intro hr
    exact isTSA_result_guard_throws m current target init g hne hg hr

/-- C6 witness: a guard returning `false` vetoes even a backward move. -/
theorem C6_guard_veto_semantics_witness :
    (isTargetStepAllowed mFalseGuard stepC stepA navInit).result =
      .ok false :=
  ((C6_guard_veto_semantics mFalseGuard stepC stepA navInit guardFalse rfl
    (by decide)).1 (.bool false) rfl).1 rfl

/-! ### Claim C7 -/

/-- C7: while a registered guard's invocation is pending the container and
the current step are marked disabled and the container carries a loading
message; once the guard resolves (returns any value) the disabled and
loading state on both is cleared. -/
theorem C7_guard_pending_state (m : MSModel) (current target : Step)
    (init : NavState) (g : Guard) (v : JsRet)
    (hg : guardOf m current = some g) (hne : current ≠ target)
    (hr : g (mkGuardArg current target
        (jsIndexOf m.steps target - jsIndexOf m.steps current)) = .ret v) :
    (isTargetStepAllowed m current target init).pendingStates =
      [{ containerDisabled := true, stepDisabled := true,
         loadingMessage := true }] ∧
    (isTargetStepAllowed m current target init).finalState =
      { containerDisabled := false, stepDisabled := false,
        loadingMessage := false } :=
  isTSA_states_of_ret m current target init g v hg hne hr

/-- C7 witness: instantiated on a guard returning `false` for the move
`C → A`. -/
theorem C7_guard_pending_state_witness :
    (isTargetStepAllowed mFalseGuard stepC stepA navInit).pendingStates =
      [{ containerDisabled := true, stepDisabled := true,
         loadingMessage := true }] ∧
    (isTargetStepAllowed mFalseGuard stepC stepA navInit).finalState =
      { containerDisabled := false, stepDisabled := false,
        loadingMessage := false } :=
  C7_guard_pending_state mFalseGuard stepC stepA navInit guardFalse
    (.bool false) rfl (by decide) rfl

/-! ### Claim C3 -/

theorem loadValue_entry (cfg : PersistCfg) (now e : Int) (d : JsonVal)
    (s : Store) (hl : cfg.beforeLoad = none)
    (hget : getItem s cfg.storageKey =
      some (.obj [("maxAge", .num e), ("data", d)]))
    (hobj : jsTypeofObject d = true) :
    loadValue cfg now s =
      if now < e then (s, some d)
      else (removeItem s cfg.storageKey, none) := by
  have htruthy :
      jsTruthy (JsonVal.obj [("maxAge", .num e), ("data", d)]) = true := rfl
  have hdata :
      jsGetField (JsonVal.obj [("maxAge", .num e), ("data", d)]) "data" =
        some d := rfl
  have hmax :
      jsGetField (JsonVal.obj [("maxAge", .num e), ("data", d)]) "maxAge" =
        some (.num e) := rfl
  rw [loadValue]
  simp only [hget, hl, htruthy, hdata, hmax, hobj, if_true]

/-- C3: with no `beforeSave`/`beforeLoad` hooks, saving a form value (an
object, as every group-type form value is) and loading strictly before the
`maxAge` expiry restores the value unchanged, while loading at or after
the expiry restores nothing and removes the stored entry. -/
theorem C3_persistence_roundtrip (cfg : PersistCfg) (s : Store)
    (kvs : List (String × JsonVal)) (now later : Int)
    (hsv : cfg.beforeSave = none) (hl : cfg.beforeLoad = none) :
    (later < now + cfg.maxAge →
      loadValue cfg later (saveValue cfg now s (.obj kvs)) =
        (saveValue cfg now s (.obj kvs), some (.obj kvs))) ∧
    (now + cfg.maxAge ≤ later →
      (loadValue cfg later (saveValue cfg now s (.obj kvs))).2 = none ∧
      getItem (loadValue cfg later (saveValue cfg now s (.obj kvs))).1
        cfg.storageKey = none) := by
  have hsave : saveValue cfg now s (.obj kvs) =
      setItem s cfg.storageKey
        (.obj [("maxAge", .num (now + cfg.maxAge)), ("data", .obj kvs)]) := by
    rw [saveValue, hsv]
    rfl
  have hget := getItem_setItem_same s cfg.storageKey
    (.obj [("maxAge", .num (now + cfg.maxAge)), ("data", .obj kvs)])
  rw [hsave]
  have hload := loadValue_entry cfg later (now + cfg.maxAge) (.obj kvs)
    (setItem s cfg.storageKey
      (.obj [("maxAge", .num (now + cfg.maxAge)), ("data", .obj kvs)]))
    hl hget rfl
  constructor
  · intro hlt
    rw [hload, if_pos hlt]
  · intro hge
    rw [hload, if_neg (not_lt.mpr hge)]
    exact ⟨rfl, getItem_removeItem_same _ _⟩

/-- A resolved local-storage configuration with the default prefix, no
user key, form name `myForm`, and the default one-hour `maxAge`. -/
def cfgRound : PersistCfg :=
  { storageKey := mkStorageKey "formkit" none "myForm" }

/-- C3 witness: a concrete round-trip with value `{a: 1}` saved at time 0:
loading at time 10 restores it, loading at exactly the expiry purges. -/
theorem C3_persistence_roundtrip_witness :
    loadValue cfgRound 10 (saveValue cfgRound 0 [] (.obj [("a", .num 1)])) =
      (saveValue cfgRound 0 [] (.obj [("a", .num 1)]),
        some (.obj [("a", .num 1)])) ∧
    (loadValue cfgRound 3600000
      (saveValue cfgRound 0 [] (.obj [("a", .num 1)]))).2 = none ∧
    getItem (loadValue cfgRound 3600000
      (saveValue cfgRound 0 [] (.obj [("a", .num 1)]))).1
      cfgRound.storageKey = none := by
  have h1 := (C3_persistence_roundtrip cfgRound [] [("a", .num 1)] 0 10
    rfl rfl).1 (by norm_num [cfgRound])
  have h2 := (C3_persistence_roundtrip cfgRound [] [("a", .num 1)] 0 3600000
    rfl rfl).2 (by norm_num [cfgRound])
  exact ⟨h1, h2.1, h2.2⟩

/-! ### Claim C4 -/

/-- C4: when the active step is removed, the new active step is the step
at index `max(removedIndex - 1, 0)` of the remaining list (rendered via
its name), or the empty string when no steps remain — and that index
always exists when steps remain; removing a non-active step leaves the
active-step reference unchanged. -/
theorem C4_active_step_removal (steps : List Step)
    (activeStep removedName : String) (r : Nat) (s : Step)
    (hnd : (steps.map (fun st => st.name)).Nodup)
    (hr : steps.get? r = some s) (hname : s.name = removedName) :
    (activeStep = removedName →
      (childRemoved steps activeStep removedName).2 =
        (((steps.eraseIdx r).get? (r - 1)).map (fun t => t.name)).getD "") ∧
    (steps.eraseIdx r ≠ [] →
      ((steps.eraseIdx r).get? (r - 1)).isSome = true) ∧
    (activeStep ≠ removedName →
      (childRemoved steps activeStep removedName).2 = activeStep) := by
  have hfr : filterRemovedAux removedName steps 0 (-1) =
      (steps.eraseIdx r, ((0 + r : Nat) : Int)) :=
    filterRemovedAux_spec removedName steps r s hnd hr hname 0 (-1)
  have hrlen : r < steps.length := by
    by_contra hcon
    rw [List.get?_len_le (by omega)] at hr
    cases hr
  refine ⟨?_, ?_, ?_⟩
  · intro ha
    rw [childRemoved]
    simp only [hfr, Nat.zero_add, if_pos ha]
    have hjs : jsIdx (setNodePositionProps (steps.eraseIdx r))
        (if ((r : Nat) : Int) > 0 then ((r : Nat) : Int) - 1 else 0) =
        (setNodePositionProps (steps.eraseIdx r)).get? (r - 1) := by
      by_cases hr0 : r = 0
      · subst hr0
        rw [if_neg (by omega), jsIdx, if_pos (by omega)]
        rfl
      · rw [if_pos (by exact_mod_cast Nat.pos_of_ne_zero hr0), jsIdx,
          if_pos (by omega)]
        congr 1
        omega
    rw [hjs, setNodePositionProps_get?]
    cases hgt : (steps.eraseIdx r).get? (r - 1) with
    | none => rfl
    | some t => rfl
  · intro hne
    have h1 : (steps.eraseIdx r).length = steps.length - 1 :=
      List.length_eraseIdx_of_lt hrlen
    have h2 : 0 < (steps.eraseIdx r).length := List.length_pos.mpr hne
    have h3 : r - 1 < (steps.eraseIdx r).length := by omega
    rw [List.get?_eq_get h3]
    rfl
  · intro hne
    rw [childRemoved]
    simp only [hfr, if_neg hne]

/-- C4 witness: removing active `B` from `[A, B, C]` falls back to `A`;
removing non-active `B` while `A` is active keeps `A`. -/
theorem C4_active_step_removal_witness :
    (childRemoved [stepA, stepBInvalid, stepC] "B" "B").2 =
      ((([stepA, stepBInvalid, stepC].eraseIdx 1).get? (1 - 1)).map
        (fun t => t.name)).getD "" ∧
    (childRemoved [stepA, stepBInvalid, stepC] "B" "B").2 = "A" ∧
    (childRemoved [stepA, stepBInvalid, stepC] "A" "B").2 = "A" :=
  ⟨(C4_active_step_removal [stepA, stepBInvalid, stepC] "B" "B" 1
      stepBInvalid (by decide) rfl rfl).1 rfl, rfl,
   (C4_active_step_removal [stepA, stepBInvalid, stepC] "A" "B" 1
      stepBInvalid (by decide) rfl rfl).2.2 (by decide)⟩

/-! ### Claim C8 -/

/-- C8: after every step attach and every step detach, each step's
`isFirstStep` holds exactly at index 0, `isLastStep` exactly at the last
index, `stepIndex` equals the array index, and the `steps` back-reference
is the full current list. -/
theorem C8_position_invariant (isBrowser : Bool) (domIdx : String → Nat)
    (steps : List Step) (child : Step) (activeStep removedName : String) :
    posConsistent (childAttach isBrowser domIdx steps child) ∧
    posConsistent (childRemoved steps activeStep removedName).1 := by
  constructor
  · rw [childAttach]
    exact posConsistent_setNodePositionProps _
  · rw [childRemoved]
    exact posConsistent_setNodePositionProps _

/-- C8 witness: attaching `C` after `A` gives the second step index 1,
last-step flag, and the `["A", "C"]` back-reference. -/
theorem C8_position_invariant_witness :
    ((childAttach true (fun _ => 0) [stepA] stepC).get? 1).map
      (fun s => (s.isFirstStep, s.isLastStep, s.stepIndex, s.stepsRef)) =
      some (false, true, 1, ["A", "C"]) := by
  have h := (C8_position_invariant true (fun _ => 0) [stepA] stepC "x" "y").1
  cases hg : (childAttach true (fun _ => 0) [stepA] stepC).get? 1 with
  | none => exact absurd hg (by decide)
  | some s =>
    have hc := h 1 s hg
    have hlen : (childAttach true (fun _ => 0) [stepA] stepC).length = 2 := rfl
    have hnames : (childAttach true (fun _ => 0) [stepA] stepC).map
        (fun t => t.name) = ["A", "C"] := rfl
    rw [hlen, hnames] at hc
    rcases hc with ⟨h1, h2, h3, h4⟩
    simp [h1, h2, h3, h4]

/-! ### Claim C9 -/

/-- The local-storage configuration of the failing input: control field
`persist` configured, defaults otherwise. -/
def cfgControl : PersistCfg :=
  { storageKey := mkStorageKey "formkit" none "myform",
    control := some "persist" }

/-- C9 (code bug): with a control field configured whose value is `false`
at creation and a truthy `useLocalStorage` prop, the plugin's cached
enable flag is `true` — the control value is ignored because the outer
`controlNode` variable is shadowed — so a form commit writes an entry to
the store even though persistence should be off.  (The last conjunct
shows the entry is removed once the control field itself commits `false`,
the path the claim's second half describes.) -/
theorem C9_control_field_ignored_at_init :
    (lsInit (some (.bool true)) (.bool false) []).controlValue =
      .bool false ∧
    (lsInit (some (.bool true)) (.bool false) []).useLocalStorage = true ∧
    getItem (lsStep cfgControl (lsInit (some (.bool true)) (.bool false) [])
        (.formCommit (.obj [("a", .num 1)]) 0)).store
      cfgControl.storageKey =
      some (.obj [("maxAge", .num 3600000), ("data", .obj [("a", .num 1)])]) ∧
    getItem (lsStep cfgControl
        (lsStep cfgControl (lsInit (some (.bool true)) (.bool false) [])
          (.formCommit (.obj [("a", .num 1)]) 0))
        (.controlCommit (.bool false))).store cfgControl.storageKey =
      none := by
  exact ⟨rfl, rfl, rfl, rfl⟩

/-! ### Claim C10 -/

/-- C10: when neither the node's `allowIncomplete` prop nor the plugin
option is a boolean, the resolved `allowIncomplete` is `true`, and with
`allowIncomplete = true` (and no guard) `isTargetStepAllowed` permits
every move, in particular forward moves past invalid steps. -/
theorem C10_allowIncomplete_defaults_true (nodeProp optProp : Option JsonVal)
    (hn : ∀ b, nodeProp ≠ some (.bool b))
    (ho : ∀ b, optProp ≠ some (.bool b)) :
    resolveAllowIncomplete nodeProp optProp = .bool true ∧
    (∀ (m : MSModel) (current target : Step) (init : NavState),
      m.allowIncomplete = true → guardOf m current = none →
      (isTargetStepAllowed m current target init).result = .ok true) := by
  constructor
  · unfold resolveAllowIncomplete
    split
    · exact absurd rfl (hn _)
    · split
      · exact absurd rfl (ho _)
      · rfl
  · intro m current target init haI hg
    by_cases hct : current = target
    · subst hct
      rw [isTSA_self]
    · rw [isTSA_result_noguard m current target init hct hg]
      exact postGuard_allowIncomplete m _ _ haI

/-- Steps `[A, B, C]` with `B` invalid but `allowIncomplete = true`. -/
def mAllow : MSModel :=
  { steps := [stepA, stepBInvalid, stepC], allowIncomplete := true,
    parentGuard := none, stepGuard := noGuards }

/-- C10 witness: a non-boolean node prop and absent option resolve to
`true`, and the forward move `A → C` past invalid `B` is then allowed. -/
theorem C10_allowIncomplete_defaults_true_witness :
    resolveAllowIncomplete (some (.str "yes")) none = .bool true ∧
    (isTargetStepAllowed mAllow stepA stepC navInit).result = .ok true := by
  have h := C10_allowIncomplete_defaults_true (some (.str "yes")) none
    (by intro b hb; injection hb with hb2; cases hb2)
    (by intro b hb; cases hb)
  exact ⟨h.1, h.2 mAllow stepA stepC navInit rfl rfl⟩

end FormKitAddons
